import Mathlib

/-!
Verification of the WatSON binary format library (`watson.h` / `watson.cpp`).

Shallow embedding: a raw Ngrdnt record is a `List Nat` of its bytes (each
byte a `Nat`; arithmetic that the C++ performs on fixed-width integers is
modelled with explicit `% 2^w` where overflow matters).  Pure C++ helper
functions become Lean functions with the same names where possible.
-/

namespace Watson

/-- `watson::size_type`: top two bits of the type-marker byte,
`(t & 0xC0) >> 6`.  Size classes are kept as their numeric codes
0 = k_zero, 1 = k_one, 2 = k_two, 3 = k_eight. -/
def size_type (t : Nat) : Nat := (t &&& 0xC0) >>> 6

/-- `watson::size_size`: number of length bytes for a size class,
`k_eight == t ? 8 : uint8_t(t)`. -/
def size_size (st : Nat) : Nat := if st = 3 then 8 else st

/-- `watson::size_type_necessary`: smallest size class for a payload of
`data_size` bytes, with the source's exact thresholds. -/
def size_type_necessary (data_size : Nat) : Nat :=
  if data_size = 0 then 0
  else if data_size < 0xFE then 1
  else if data_size < 0xFFFE then 2
  else 3

/-- `watson::ngrdnt_header_size(Size_type)`: `size_size(st) + 1`. -/
def ngrdnt_header_size (st : Nat) : Nat := size_size st + 1

/-- `watson::ngrdnt_header_size(uint8_t)`: header size from the marker byte. -/
def marker_header_size (t : Nat) : Nat := ngrdnt_header_size (size_type t)

/-- `watson::ngrdnt_type`: bottom six bits of the type-marker, `t & 0x3F`.
Kind codepoints are kept numeric (0x3F = k_null, 0x31 = k_true,
0x30 = k_false, 0x22 = k_flags, 0x24 = k_float, 0x29 = k_int32,
0x2C = k_int64, 0x35 = k_uint64, 0x33 = k_string, 0x0C = k_library,
0x03 = k_container, 0x1A = k_zip, 0x0D = k_map, 0x02 = k_binary). -/
def ngrdnt_type (t : Nat) : Nat := t &&& 0x3F

/-- `watson::type_marker`: `(st << 6) | it`. -/
def type_marker (st it : Nat) : Nat := (st <<< 6) ||| it

/-- Little-endian read of `w` bytes of `d` starting at offset `off`
(missing bytes read as 0, mirroring a read past the view). -/
def readLE (d : List Nat) : Nat → Nat → Nat
  | _, 0 => 0
  | off, w + 1 => d.getD off 0 + 256 * readLE d (off + 1) w

/-- The `w` little-endian bytes of `n` (i.e. of `n % 2^(8*w)`), as written
by `memcpy(current, &full_size, w)` on a little-endian host. -/
def leBytes : Nat → Nat → List Nat
  | _, 0 => []
  | n, w + 1 => (n % 256) :: leBytes (n / 256) w

/-- `Ngrdnt::size()`: total record length, read from the header according
to the marker's size class (the source `switch`: `k_zero → 1`,
`k_one → data()[1]`, `k_two →` the `uint16_t` at `data()+1`,
default `→` the `uint64_t` at `data()+1`). -/
def ngrdnt_size (d : List Nat) : Nat :=
  match size_type (d.headD 0) with
  | 0 => 1
  | 1 => d.getD 1 0
  | 2 => readLE d 1 2
  | _ => readLE d 1 8

/-- `build_ngrdnt<IT>` followed by the payload copy of `copy_to_ngrdnt`:
the record `[type_marker] [size bytes if 0 < data_size] [payload]`, where
the stored size is the total record length `data_size + header`. -/
def build_ngrdnt (it : Nat) (payload : List Nat) : List Nat :=
  let ds := payload.length
  let st := size_type_necessary ds
  let full := ds + ngrdnt_header_size st
  type_marker st it :: ((if 0 < ds then leBytes full (size_size st) else []) ++ payload)

/-- The payload slice of a record: the bytes after the header, up to the
record length announced by `size()` (`data() + header .. data() + size()`). -/
def payloadOf (d : List Nat) : List Nat :=
  (d.take (ngrdnt_size d)).drop (marker_header_size (d.headD 0))

/-- `ngrdnt_data<NT, IT>`: when the marker's kind equals the expected kind,
the `sizeof(NT) = w`-byte value at the header offset (the source returns a
typed pointer there and the callers dereference it, a little-endian read);
otherwise nothing (the source returns `nullptr`). -/
def ngrdnt_data (expected w : Nat) (d : List Nat) : Option Nat :=
  if ngrdnt_type (d.headD 0) = expected then
    some (readLE d (marker_header_size (d.headD 0)) w)
  else none

/-- Two's-complement value of a `w`-bit pattern, as the dereference of a
signed-integer pointer produces. -/
def asSigned (w v : Nat) : Int :=
  if v < 2 ^ (w - 1) then (v : Int) else (v : Int) - 2 ^ w

/-- `watson::to_double`: the payload's 8-byte value when the kind is
`k_float`, else `0.0`.  Doubles are modelled by their IEEE-754 bit
pattern (the source only moves the 8 bytes around); the result 0 is the
pattern of `0.0`. -/
def to_double (d : List Nat) : Nat := (ngrdnt_data 0x24 8 d).getD 0

/-- `watson::to_int32`: the signed 32-bit little-endian payload value when
the kind is `k_int32`, else 0. -/
def to_int32 (d : List Nat) : Int :=
  match ngrdnt_data 0x29 4 d with
  | some v => asSigned 32 v
  | none => 0

/-- `watson::to_int64`: the signed 64-bit little-endian payload value when
the kind is `k_int64`, else 0. -/
def to_int64 (d : List Nat) : Int :=
  match ngrdnt_data 0x2C 8 d with
  | some v => asSigned 64 v
  | none => 0

/-- `watson::to_uint64`: the unsigned 64-bit little-endian payload value
when the kind is `k_uint64`, else 0. -/
def to_uint64 (d : List Nat) : Nat := (ngrdnt_data 0x35 8 d).getD 0

/-- `k_not_found`: the shared Null sentinel, a default-constructed Ngrdnt
whose single byte is `type_marker(k_zero, k_null)`. -/
def k_not_found : List Nat := [0x3F]

/-- `watson::is_null`: kind of the marker equals `k_null`. -/
def is_null (d : List Nat) : Bool := ngrdnt_type (d.headD 0) == 0x3F

/-! The Map composite.  `Map::Children` is `std::map<uint32_t, Ngrdnt::Ptr>`,
modelled as an association list ordered by key.  `std::map::insert` places a
new key at its ordered position and keeps the existing entry when the key
is already present. -/

/-- Ordered-position insertion used when the key is absent. -/
def mapInsertPos (k : Nat) (v : List Nat) :
    List (Nat × List Nat) → List (Nat × List Nat)
  | [] => [(k, v)]
  | e :: rest => if k < e.1 then (k, v) :: e :: rest else e :: mapInsertPos k v rest

/-- `Children::find`: the value stored for key `k`, if any. -/
def mapLookup (m : List (Nat × List Nat)) (k : Nat) : Option (List Nat) :=
  (m.find? (fun e => e.1 == k)).map (fun e => e.2)

/-- `std::map::insert`: no effect when the key is present, ordered
insertion otherwise. -/
def mapInsert (k : Nat) (v : List Nat) (m : List (Nat × List Nat)) :
    List (Nat × List Nat) :=
  if (mapLookup m k).isSome then m else mapInsertPos k v m

/-- The decode loop of `Map::Map(const Ngrdnt::Ptr&)`: while payload bytes
remain, read a 4-byte little-endian key, clone the following child record
(`size()` bytes) and `insert` it, then advance past it.  The loop always
consumes at least the 4 key bytes, so fuel equal to the byte count makes
the recursion run exactly as the source loop does. -/
def mapDecodeLoop : Nat → List Nat → List (Nat × List Nat) → List (Nat × List Nat)
  | 0, _, acc => acc
  | fuel + 1, bytes, acc =>
    if bytes = [] then acc
    else
      mapDecodeLoop fuel ((bytes.drop 4).drop (ngrdnt_size (bytes.drop 4)))
        (mapInsert (readLE bytes 0 4)
          ((bytes.drop 4).take (ngrdnt_size (bytes.drop 4))) acc)

/-- `Map::Map(const Ngrdnt::Ptr&)`: run the decode loop over the payload
(the bytes between the header and `size()`). -/
def map_decode (raw : List Nat) : List (Nat × List Nat) :=
  mapDecodeLoop (payloadOf raw).length (payloadOf raw) []

/-- The `(key, child record)` pairs of a Map payload in their wire order
(the sequence of entries the decode loop visits). -/
def mapEntriesLoop : Nat → List Nat → List (Nat × List Nat)
  | 0, _ => []
  | fuel + 1, bytes =>
    if bytes = [] then []
    else
      (readLE bytes 0 4, (bytes.drop 4).take (ngrdnt_size (bytes.drop 4))) ::
        mapEntriesLoop fuel ((bytes.drop 4).drop (ngrdnt_size (bytes.drop 4)))

/-- The wire-order entry list of a Map record. -/
def map_entries (raw : List Nat) : List (Nat × List Nat) :=
  mapEntriesLoop (payloadOf raw).length (payloadOf raw)

/-- `Map::operator[]`: lookup, with the shared Null sentinel when the key
is absent. -/
def map_get (m : List (Nat × List Nat)) (k : Nat) : List Nat :=
  (mapLookup m k).getD k_not_found

/-! Containers and Libraries (`Basic_container`). -/

/-- The decode loop of `Basic_container(const Ngrdnt::Ptr&)`: while bytes
remain, clone one child record (its `size()` bytes) and advance past it.
The C++ loop never advances past a child that reports size 0 (it then
loops forever); fuel bounds the model, and the byte count is enough fuel
whenever every child record is at least one byte long. -/
def splitRecords : Nat → List Nat → List (List Nat)
  | 0, _ => []
  | fuel + 1, bytes =>
    if bytes = [] then []
    else
      bytes.take (ngrdnt_size bytes) ::
        splitRecords fuel (bytes.drop (ngrdnt_size bytes))

/-- `Container(const Ngrdnt::Ptr&)` (ETL = `Ngrdnt_identity`): the child
records of the payload, each an owned copy. -/
def container_children (raw : List Nat) : List (List Nat) :=
  splitRecords (payloadOf raw).length (payloadOf raw)

/-- Decimal digits of `n`, as `std::to_string` renders an unsigned
integer. -/
def decDigits (n : Nat) : List Nat :=
  if h : n < 10 then [48 + n] else decDigits (n / 10) ++ [48 + n % 10]
  termination_by n
  decreasing_by exact Nat.div_lt_self (by omega) (by omega)

/-- `std::to_string` on a signed integer: optional `-` then the decimal
digits of the absolute value. -/
def int_text (i : Int) : List Nat :=
  if i < 0 then 45 :: decDigits i.natAbs else decDigits i.toNat

/-- `std::to_string(double)` formats the decoded IEEE-754 double. Decimal
formatting of a floating-point value is outside this embedding (no claim
depends on this branch); the model keeps only a placeholder. -/
def double_text (_bits : Nat) : List Nat := []

/-- `watson::to_string`: canonical text for Null/True/False, decimal for
the numeric kinds, the raw payload bytes for String, empty for everything
else.  Strings are byte lists. -/
def to_string (d : List Nat) : List Nat :=
  match ngrdnt_type (d.headD 0) with
  | 0x3F => [110, 117, 108, 108]
  | 0x31 => [116, 114, 117, 101]
  | 0x30 => [102, 97, 108, 115, 101]
  | 0x24 => double_text (to_double d)
  | 0x29 => int_text (to_int32 d)
  | 0x2C => int_text (to_int64 d)
  | 0x35 => decDigits (to_uint64 d)
  | 0x33 =>
      (d.drop (marker_header_size (d.headD 0))).take
        (ngrdnt_size d - marker_header_size (d.headD 0))
  | _ => []

/-- `Library(const Ngrdnt::Ptr&)` (ETL = `Ngrdnt_string`): each child
record converted through `to_string`. -/
def library_decode (raw : List Nat) : List (List Nat) :=
  (container_children raw).map to_string

/-- `new_ngrdnt(const std::string&)`: a String record around the bytes. -/
def new_ngrdnt_string (s : List Nat) : List Nat := build_ngrdnt 0x33 s

/-- `new_ngrdnt(const Library&)`: encode every entry as a String record,
then concatenate the `size()` bytes of each into a Library record (the
source sums the children's `size()` fields and `memcpy`s that many bytes
of each). -/
def new_ngrdnt_library (val : List (List Nat)) : List Nat :=
  let cache := val.map new_ngrdnt_string
  build_ngrdnt 0x0C (cache.foldl (fun acc r => acc ++ r.take (ngrdnt_size r)) [])

/-! Compressed (Zip).  Snappy is an external collaborator; the model is
parameterised by the compress / uncompress byte functions. -/

/-- `Compressed(const Ngrdnt::Ptr& raw)`: uncompress the
`size() - header` payload bytes and adopt the result as the child. -/
def compressed_decode (unc : List Nat → List Nat) (raw : List Nat) : List Nat :=
  unc ((raw.drop (marker_header_size (raw.headD 0))).take
    (ngrdnt_size raw - marker_header_size (raw.headD 0)))

/-- `new_ngrdnt(const Compressed&)`: compress the child's `size()`-byte
image and frame the output as a Zip record. -/
def new_ngrdnt_zip (comp : List Nat → List Nat) (child : List Nat) : List Nat :=
  build_ngrdnt 0x1A (comp (child.take (ngrdnt_size child)))

/-! Flags. -/

/-- The payload byte count for an `n`-bit flag vector:
`n / 8 + (n % 8 == 0 ? 0 : 1)`. -/
def flags_data_size (n : Nat) : Nat := n / 8 + (if n % 8 = 0 then 0 else 1)

/-- One iteration of the encode loop of `new_ngrdnt(const
std::vector<bool>&)`: set bit `h % 8` of byte `indx` when flag `h` is
true.  The source stores the byte index in a `uint8_t`
(`const uint8_t indx = h >> 3`), so it is truncated modulo 256. -/
def flagStep (v : List Bool) (acc : List Nat) (h : Nat) : List Nat :=
  if v.getD h false then
    acc.set ((h >>> 3) % 256) (acc.getD ((h >>> 3) % 256) 0 ||| (1 <<< (h % 8)))
  else acc

/-- The packed payload of `new_ngrdnt(const std::vector<bool>&)`: a
zeroed `flags_data_size` buffer with every true flag's bit set. -/
def flagsBytes (v : List Bool) : List Nat :=
  (List.range v.length).foldl (flagStep v) (List.replicate (flags_data_size v.length) 0)

/-- `new_ngrdnt(const std::vector<bool>&)`: the packed payload framed as a
Flags record. -/
def new_ngrdnt_flags (v : List Bool) : List Nat := build_ngrdnt 0x22 (flagsBytes v)

/-- `watson::to_flags`: `(size() - header) * 8` booleans, bit `h % 8` of
the payload byte at index `indx`.  As in the encode loop, the source
truncates the byte index to a `uint8_t`
(`const uint8_t indx = h >> 3`), i.e. modulo 256. -/
def to_flags (d : List Nat) : List Bool :=
  (List.range ((ngrdnt_size d - marker_header_size (d.headD 0)) * 8)).map
    (fun h =>
      (d.getD (((h >>> 3) % 256) + marker_header_size (d.headD 0)) 0 &&&
        (1 <<< (h % 8))) != 0)

/-- The bits the flag-encode loop has OR-ed into byte `j` after processing
flags `0 .. n-1` (proof apparatus for the loop invariant). -/
def flagMask (v : List Bool) (j : Nat) : Nat → Nat
  | 0 => 0
  | n + 1 =>
    flagMask v j n |||
      (if n / 8 = j ∧ v.getD n false = true then 1 <<< (n % 8) else 0)

/-- `524264` false flags: `flags_data_size` of their count is `0xFFFD`,
the overflow point of the two-byte length field. -/
def ex_big_flags : List Bool := List.replicate 524264 false

/-- 2049 flags, only the last one (position 2048) set: the first flag
position whose byte index `h >> 3 = 256` is truncated by the `uint8_t`
cast to 0. -/
def ex_long_flags : List Bool := List.replicate 2048 false ++ [true]

/-! Glossary and Recipe. -/

/-- `watson::Glossary`: the name vector and the name → index map.  The
index is `std::map<std::string, uint32_t>`, modelled as an association
list (lookup-equivalent; only membership and the stored value are ever
observed). -/
structure Glossary where
  names : List (List Nat)
  index : List (List Nat × Nat)

/-- `std::map::operator[] = h`: overwrite the binding if the key is
present, append it otherwise. -/
def idxAssign (k : List Nat) (v : Nat) : List (List Nat × Nat) → List (List Nat × Nat)
  | [] => [(k, v)]
  | e :: rest => if e.1 = k then (k, v) :: rest else e :: idxAssign k v rest

/-- `Glossary(const Library&)`: `names[h] = l[h]` and `index[l[h]] = h`
for every position `h`. -/
def glossary_of (l : List (List Nat)) : Glossary :=
  ⟨l, (List.range l.length).foldl (fun idx h => idxAssign (l.getD h []) h idx) []⟩

/-- `Glossary::index.find`: the index stored for a name, if any. -/
def idxFind (g : Glossary) (nm : List Nat) : Option Nat :=
  (g.index.find? (fun e => e.1 == nm)).map (fun e => e.2)

/-- `watson::xlate(Glossary, names)`: each name's index, 0 when absent. -/
def xlate_names (g : Glossary) (names : List (List Nat)) : List Nat :=
  names.map (fun nm => (idxFind g nm).getD 0)

/-- `watson::xlate(Glossary, keys)`: each key's name, empty when the key
is at least the name count. -/
def xlate_keys (g : Glossary) (keys : List Nat) : List (List Nat) :=
  keys.map (fun k => if k < g.names.length then g.names.getD k [] else [])

/-- The `for` loop of `Recipe::ngrdnt` from the second step on.  A
Container child is bounds-checked (`step >= size()` yields the sentinel),
a Map child is looked up (absent keys yield the sentinel and navigation
continues on it), a Zip child is unwrapped without consuming the step,
and any other kind yields the sentinel.  Unwrapping does not consume a
step, so fuel bounds the iteration count (the C++ loop itself spins
forever on adversarial nested Zip data). -/
def recipeLoop (unc : List Nat → List Nat) : Nat → List Nat → List Nat → Option (List Nat)
  | _, cur, [] => some cur
  | 0, _, _ :: _ => none
  | fuel + 1, cur, s :: rest =>
    match ngrdnt_type (cur.headD 0) with
    | 0x03 =>
        if s ≥ (container_children cur).length then some k_not_found
        else recipeLoop unc fuel ((container_children cur).getD s []) rest
    | 0x0D => recipeLoop unc fuel (map_get (map_decode cur) s) rest
    | 0x1A => recipeLoop unc fuel (compressed_decode unc cur) (s :: rest)
    | _ => some k_not_found

/-- `Recipe::ngrdnt(steps)`.  A Recipe is represented by its root
container's children.  An empty step list returns the sentinel.  The
first step indexes the root container through the unchecked
`std::vector::operator[]` of `Basic_container::operator[]`; an
out-of-range first step is undefined behaviour in the source, modelled
as no result. -/
def recipe_ngrdnt (unc : List Nat → List Nat) (fuel : Nat)
    (container : List (List Nat)) (steps : List Nat) : Option (List Nat) :=
  match steps with
  | [] => some k_not_found
  | s :: rest =>
    match container.get? s with
    | some r => recipeLoop unc fuel r rest
    | none => none

/-! Concrete records used to instantiate the quantified theorems below. -/

/-- A Map record whose payload holds two entries with the same key 0:
first a True record, then a False record
(`4D 0C 00000000 31 00000000 30`). -/
def ex_dup_map : List Nat :=
  [0x4D, 0x0C, 0, 0, 0, 0, 0x31, 0, 0, 0, 0, 0x30]

/-- A Container record with a single Null child (`43 03 3F`). -/
def ex_container1 : List Nat := [0x43, 0x03, 0x3F]

/-- A False record, the smallest Ingredient: the single marker byte. -/
def ex_false : List Nat := [0x30]

/-- A compressor satisfying the Snappy round-trip hypothesis whose output
for a short input is exactly `0xFFFD` bytes long: length prefix, the
input, zero padding. -/
def comp0 (b : List Nat) : List Nat :=
  b.length :: (b ++ List.replicate (0xFFFD - 1 - b.length) 0)

/-- The matching decompressor: drop the length prefix, take that many
bytes. -/
def unc0 (c : List Nat) : List Nat := c.tail.take (c.headD 0)

/-- `"Testing"`. -/
def str_testing : List Nat := [84, 101, 115, 116, 105, 110, 103]

/-- `"Testing."`. -/
def str_testing_dot : List Nat := [84, 101, 115, 116, 105, 110, 103, 46]

/-- `"Third"`. -/
def str_third : List Nat := [84, 104, 105, 114, 100]

/-- The S4 Library record:
`4C 1C 73 09 "Testing" 73 0A "Testing." 73 07 "Third"`. -/
def test_library_bytes : List Nat :=
  [0x4C, 0x1C,
   0x73, 0x09, 84, 101, 115, 116, 105, 110, 103,
   0x73, 0x0A, 84, 101, 115, 116, 105, 110, 103, 46,
   0x73, 0x07, 84, 104, 105, 114, 100]

/-- An Int32 record: marker `0x69 = type_marker(k_one, k_int32)`, total
size 6, payload bytes `F0 F0 F0 F1`. -/
def ex_int32 : List Nat := [0x69, 0x06, 0xF0, 0xF0, 0xF0, 0xF1]

/-- A String record: marker `0x73 = type_marker(k_one, k_string)`, total
size 3, payload `"A"`. -/
def ex_string : List Nat := [0x73, 0x03, 0x41]

/-- A Float record: marker `0x64 = type_marker(k_one, k_float)`, total
size 10, payload the 8-byte pattern of `1.0` (`0x3FF0000000000000`). -/
def ex_float : List Nat := [0x64, 0x0A, 0, 0, 0, 0, 0, 0, 0xF0, 0x3F]

/-- An Int64 record: marker `0x6C = type_marker(k_one, k_int64)`, total
size 10, payload `-1` in two's complement. -/
def ex_int64 : List Nat :=
  [0x6C, 0x0A, 0xFF, 0xFF, 0xFF, 0xFF, 0xFF, 0xFF, 0xFF, 0xFF]

/-- A UInt64 record: marker `0x75 = type_marker(k_one, k_uint64)`, total
size 10, payload 1. -/
def ex_uint64 : List Nat := [0x75, 0x0A, 1, 0, 0, 0, 0, 0, 0, 0]

end Watson

namespace Watson

/-! Basic facts about the header codec. -/

theorem size_type_le_three (t : Nat) : size_type t ≤ 3 := by
  have h1 : t &&& 0xC0 ≤ 0xC0 := Nat.and_le_right
  have h2 : (t &&& 0xC0) >>> 6 ≤ 0xC0 >>> 6 := by
    simpa [Nat.shiftRight_eq_div_pow] using Nat.div_le_div_right (c := 64) h1
  simpa [size_type] using h2

theorem size_type_type_marker {st it : Nat} (hst : st ≤ 3) (hit : it < 64) :
    size_type (type_marker st it) = st := by
  have h : ∀ s < 4, ∀ i < 64, size_type (type_marker s i) = s := by decide
  exact h st (by omega) it hit

theorem ngrdnt_type_type_marker {st it : Nat} (hst : st ≤ 3) (hit : it < 64) :
    ngrdnt_type (type_marker st it) = it := by
  have h : ∀ s < 4, ∀ i < 64, ngrdnt_type (type_marker s i) = i := by decide
  exact h st (by omega) it hit

end Watson

namespace Watson

/-- Helper: `ngrdnt_size` as a single little-endian read of
`size_size` bytes at offset 1 (1 for size class Zero). -/
theorem ngrdnt_size_eq (d : List Nat) :
    ngrdnt_size d =
      if size_type (d.headD 0) = 0 then 1
      else readLE d 1 (size_size (size_type (d.headD 0))) := by
  have h := size_type_le_three (d.headD 0)
  have h4 : size_type (d.headD 0) = 0 ∨ size_type (d.headD 0) = 1 ∨
      size_type (d.headD 0) = 2 ∨ size_type (d.headD 0) = 3 := by omega
  unfold ngrdnt_size
  rcases h4 with h0 | h0 | h0 | h0 <;> rw [h0] <;> simp [readLE, size_size]

/-! Reading back the length field written by `build_ngrdnt`. -/

theorem leBytes_length (n w : Nat) : (leBytes n w).length = w := by
  induction w generalizing n with
  | zero => rfl
  | succ w ih => simp [leBytes, ih]

theorem readLE_cons (a : Nat) (l : List Nat) (off w : Nat) :
    readLE (a :: l) (off + 1) w = readLE l off w := by
  induction w generalizing off with
  | zero => rfl
  | succ w ih =>
      simp only [readLE, List.getD_cons_succ]
      rw [ih (off + 1)]

theorem readLE_leBytes (n w : Nat) (rest : List Nat) :
    readLE (leBytes n w ++ rest) 0 w = n % 2 ^ (8 * w) := by
  induction w generalizing n with
  | zero => simp [readLE, Nat.mod_one]
  | succ w ih =>
      have hpow : 2 ^ (8 * (w + 1)) = 256 * 2 ^ (8 * w) := by
        rw [Nat.mul_succ, Nat.pow_add]; ring
      simp only [leBytes, List.cons_append, readLE, List.getD_cons_zero]
      rw [readLE_cons, ih (n / 256), hpow, Nat.mod_mul]

theorem size_type_necessary_le (ds : Nat) : size_type_necessary ds ≤ 3 := by
  unfold size_type_necessary
  split_ifs <;> omega

/-- Helper: the exact thresholds of `size_type_necessary`, as an iff for
each of the four size classes. -/
theorem size_type_necessary_iff (p : Nat) :
    (size_type_necessary p = 0 ↔ p = 0) ∧
    (size_type_necessary p = 1 ↔ 0 < p ∧ p < 0xFE) ∧
    (size_type_necessary p = 2 ↔ 0xFE ≤ p ∧ p < 0xFFFE) ∧
    (size_type_necessary p = 3 ↔ 0xFFFE ≤ p) := by
  unfold size_type_necessary
  split_ifs <;> refine ⟨?_, ?_, ?_, ?_⟩ <;>
    first
    | omega
    | (rw [false_iff]; omega)

/-- The length field of a freshly built record reads back as the total
size, provided the total fits the chosen width (the payload length is not
`0xFFFD`, where the two-byte field would overflow, and small enough for
the eight-byte field). -/
theorem ngrdnt_size_build (it : Nat) (payload : List Nat)
    (hit : it < 64)
    (h1 : payload.length ≠ 0xFFFD)
    (h2 : payload.length + 9 < 2 ^ 64) :
    ngrdnt_size (build_ngrdnt it payload) =
      payload.length + ngrdnt_header_size (size_type_necessary payload.length) := by
  have hstle := size_type_necessary_le payload.length
  have hiff := size_type_necessary_iff payload.length
  rcases Nat.eq_zero_or_pos payload.length with hz | hp
  · have hpl : payload = [] := List.length_eq_zero.mp hz
    subst hpl
    have hm : size_type (type_marker 0 it) = 0 := size_type_type_marker (by omega) hit
    simp [build_ngrdnt, size_type_necessary, ngrdnt_size, hm,
      ngrdnt_header_size, size_size]
  · have hne : size_type_necessary payload.length ≠ 0 := by
      intro h; exact absurd (hiff.1.mp h) (by omega)
    have hbuild : build_ngrdnt it payload =
        type_marker (size_type_necessary payload.length) it ::
          (leBytes
              (payload.length + ngrdnt_header_size (size_type_necessary payload.length))
              (size_size (size_type_necessary payload.length)) ++ payload) := by
      simp only [build_ngrdnt, if_pos hp]
    have hmarker :
        size_type (type_marker (size_type_necessary payload.length) it) =
          size_type_necessary payload.length :=
      size_type_type_marker hstle hit
    have hsize : ngrdnt_size (build_ngrdnt it payload) =
        (payload.length + ngrdnt_header_size (size_type_necessary payload.length)) %
          2 ^ (8 * size_size (size_type_necessary payload.length)) := by
      rw [ngrdnt_size_eq, hbuild]
      simp only [List.headD_cons, hmarker, if_neg hne]
      rw [show (1 : Nat) = 0 + 1 by rfl, readLE_cons, readLE_leBytes]
    have hfit :
        payload.length + ngrdnt_header_size (size_type_necessary payload.length) <
          2 ^ (8 * size_size (size_type_necessary payload.length)) := by
      have h3 : size_type_necessary payload.length = 1 ∨
          size_type_necessary payload.length = 2 ∨
          size_type_necessary payload.length = 3 := by omega
      rcases h3 with h3 | h3 | h3 <;> rw [h3] <;>
        simp only [size_size, ngrdnt_header_size] <;> norm_num
      · have := hiff.2.1.mp h3
        omega
      · have := hiff.2.2.1.mp h3
        omega
      · omega
    rw [hsize, Nat.mod_eq_of_lt hfit]

/-- The payload of a freshly built record (the bytes between the header and
the announced size) is the payload it was built from. -/
theorem payloadOf_build (it : Nat) (payload : List Nat)
    (hit : it < 64)
    (h1 : payload.length ≠ 0xFFFD)
    (h2 : payload.length + 9 < 2 ^ 64) :
    payloadOf (build_ngrdnt it payload) = payload := by
  have hstle := size_type_necessary_le payload.length
  have hsz := ngrdnt_size_build it payload hit h1 h2
  rcases Nat.eq_zero_or_pos payload.length with hz | hp
  · have hpl : payload = [] := List.length_eq_zero.mp hz
    subst hpl
    have hm : size_type (type_marker 0 it) = 0 := size_type_type_marker (by omega) hit
    simp only [build_ngrdnt, List.length_nil] at hsz ⊢
    simp only [payloadOf, hsz]
    simp [size_type_necessary, marker_header_size, ngrdnt_header_size, size_size, hm]
  · have hbuild : build_ngrdnt it payload =
        type_marker (size_type_necessary payload.length) it ::
          (leBytes
              (payload.length + ngrdnt_header_size (size_type_necessary payload.length))
              (size_size (size_type_necessary payload.length)) ++ payload) := by
      simp only [build_ngrdnt, if_pos hp]
    have hmarker :
        size_type (type_marker (size_type_necessary payload.length) it) =
          size_type_necessary payload.length :=
      size_type_type_marker hstle hit
    have hlen : (build_ngrdnt it payload).length =
        payload.length + ngrdnt_header_size (size_type_necessary payload.length) := by
      rw [hbuild]
      simp [leBytes_length, ngrdnt_header_size]
      omega
    simp only [payloadOf, hsz]
    rw [List.take_of_length_le (by rw [hlen]), hbuild]
    simp only [List.headD_cons, marker_header_size, hmarker, ngrdnt_header_size]
    rw [Nat.add_comm (size_size (size_type_necessary payload.length)) 1,
      show (1 + size_size (size_type_necessary payload.length)) =
        size_size (size_type_necessary payload.length) + 1 from
        Nat.add_comm _ _,
      List.drop_succ_cons,
      List.drop_left' (leBytes_length _ _)]

/-- C3: `size_type_necessary` returns `k_zero` iff the payload length is 0,
`k_one` iff it is in `(0, 0xFE)`, `k_two` iff it is in `[0xFE, 0xFFFE)`,
and `k_eight` iff it is at least `0xFFFE`. -/
theorem size_type_necessary_cases (p : Nat) :
    (size_type_necessary p = 0 ↔ p = 0) ∧
    (size_type_necessary p = 1 ↔ 0 < p ∧ p < 0xFE) ∧
    (size_type_necessary p = 2 ↔ 0xFE ≤ p ∧ p < 0xFFFE) ∧
    (size_type_necessary p = 3 ↔ 0xFFFE ≤ p) :=
  size_type_necessary_iff p

/-- C6: `Ngrdnt::size()` returns 1 for size class Zero and otherwise the
little-endian unsigned integer of width `size_size` read at offset 1. -/
theorem ngrdnt_size_spec (d : List Nat) :
    ngrdnt_size d =
      if size_type (d.headD 0) = 0 then 1
      else readLE d 1 (size_size (size_type (d.headD 0))) :=
  ngrdnt_size_eq d

end Watson

namespace Watson

/-- C7: each scalar decoder returns 0 (the pattern of `0.0` for
`to_double`) when applied to a record of any other kind, without error;
on a record of its own kind it returns the native-width little-endian
payload value (signed decoders through two's complement). -/
theorem scalar_decoders_spec (d : List Nat) :
    (ngrdnt_type (d.headD 0) ≠ 0x24 → to_double d = 0) ∧
    (ngrdnt_type (d.headD 0) = 0x24 →
      to_double d = readLE d (marker_header_size (d.headD 0)) 8) ∧
    (ngrdnt_type (d.headD 0) ≠ 0x29 → to_int32 d = 0) ∧
    (ngrdnt_type (d.headD 0) = 0x29 →
      to_int32 d = asSigned 32 (readLE d (marker_header_size (d.headD 0)) 4)) ∧
    (ngrdnt_type (d.headD 0) ≠ 0x2C → to_int64 d = 0) ∧
    (ngrdnt_type (d.headD 0) = 0x2C →
      to_int64 d = asSigned 64 (readLE d (marker_header_size (d.headD 0)) 8)) ∧
    (ngrdnt_type (d.headD 0) ≠ 0x35 → to_uint64 d = 0) ∧
    (ngrdnt_type (d.headD 0) = 0x35 →
      to_uint64 d = readLE d (marker_header_size (d.headD 0)) 8) := by
  refine ⟨fun h => ?_, fun h => ?_, fun h => ?_, fun h => ?_,
    fun h => ?_, fun h => ?_, fun h => ?_, fun h => ?_⟩
  · unfold to_double ngrdnt_data; rw [if_neg h]; rfl
  · unfold to_double ngrdnt_data; rw [if_pos h]; rfl
  · unfold to_int32 ngrdnt_data; rw [if_neg h]
  · unfold to_int32 ngrdnt_data; rw [if_pos h]
  · unfold to_int64 ngrdnt_data; rw [if_neg h]
  · unfold to_int64 ngrdnt_data; rw [if_pos h]
  · unfold to_uint64 ngrdnt_data; rw [if_neg h]; rfl
  · unfold to_uint64 ngrdnt_data; rw [if_pos h]; rfl

/-- Witness for C7 at concrete records of each kind: a String record
decodes to 0 under every numeric decoder, and each numeric decoder reads
its own record's payload. -/
theorem scalar_decoders_spec_witness :
    (to_double ex_string = 0 ∧ to_int32 ex_string = 0 ∧
      to_int64 ex_string = 0 ∧ to_uint64 ex_string = 0) ∧
    to_double ex_float =
      readLE ex_float (marker_header_size (ex_float.headD 0)) 8 ∧
    to_int32 ex_int32 =
      asSigned 32 (readLE ex_int32 (marker_header_size (ex_int32.headD 0)) 4) ∧
    to_int64 ex_int64 =
      asSigned 64 (readLE ex_int64 (marker_header_size (ex_int64.headD 0)) 8) ∧
    to_uint64 ex_uint64 =
      readLE ex_uint64 (marker_header_size (ex_uint64.headD 0)) 8 :=
  ⟨⟨(scalar_decoders_spec ex_string).1 (by decide),
    (scalar_decoders_spec ex_string).2.2.1 (by decide),
    (scalar_decoders_spec ex_string).2.2.2.2.1 (by decide),
    (scalar_decoders_spec ex_string).2.2.2.2.2.2.1 (by decide)⟩,
   (scalar_decoders_spec ex_float).2.1 (by decide),
   (scalar_decoders_spec ex_int32).2.2.2.1 (by decide),
   (scalar_decoders_spec ex_int64).2.2.2.2.2.1 (by decide),
   (scalar_decoders_spec ex_uint64).2.2.2.2.2.2.2 (by decide)⟩

end Watson

namespace Watson

/-! C1: duplicate keys in a Map payload. -/

theorem mapLookup_nil (k : Nat) : mapLookup [] k = none := rfl

theorem mapLookup_cons (e : Nat × List Nat) (m : List (Nat × List Nat)) (k : Nat) :
    mapLookup (e :: m) k = if e.1 = k then some e.2 else mapLookup m k := by
  by_cases h : e.1 = k
  · simp [mapLookup, List.find?_cons_of_pos, h]
  · simp [mapLookup, List.find?_cons_of_neg, h]

theorem mapLookup_mapInsertPos_self {m : List (Nat × List Nat)} {k : Nat}
    (v : List Nat) (h : mapLookup m k = none) :
    mapLookup (mapInsertPos k v m) k = some v := by
  induction m with
  | nil => simp [mapInsertPos, mapLookup_cons]
  | cons e rest ih =>
      rw [mapLookup_cons] at h
      by_cases he : e.1 = k
      · simp [he] at h
      · simp only [he, if_false] at h
        unfold mapInsertPos
        by_cases hlt : k < e.1
        · simp [hlt, mapLookup_cons]
        · simp [hlt, mapLookup_cons, he, ih h]

theorem mapLookup_mapInsertPos_ne {k' : Nat} (v : List Nat)
    (m : List (Nat × List Nat)) {k : Nat} (h : k ≠ k') :
    mapLookup (mapInsertPos k' v m) k = mapLookup m k := by
  have h2 : ¬ k' = k := fun he => h he.symm
  induction m with
  | nil => simp [mapInsertPos, mapLookup_cons, mapLookup_nil, h2]
  | cons e rest ih =>
      unfold mapInsertPos
      by_cases hlt : k' < e.1
      · simp [hlt, mapLookup_cons, h2]
      · simp [hlt, mapLookup_cons, ih]

/-- Lookup after `std::map::insert`: an existing binding is kept, a new
key receives the inserted value, other keys are untouched. -/
theorem mapLookup_mapInsert (k' : Nat) (v : List Nat)
    (m : List (Nat × List Nat)) (k : Nat) :
    mapLookup (mapInsert k' v m) k =
      if k = k' then some ((mapLookup m k').getD v) else mapLookup m k := by
  unfold mapInsert
  by_cases hk : k = k'
  · subst hk
    cases hm : mapLookup m k with
    | some w => simp [hm]
    | none => simp [hm, mapLookup_mapInsertPos_self v hm]
  · cases hm : mapLookup m k' with
    | some w => simp [hm, hk]
    | none => simp [hm, hk, mapLookup_mapInsertPos_ne v m hk]

/-- The decode loop resolves each key to the binding already in the
accumulator, or failing that to the first entry with that key in wire
order. -/
theorem mapDecodeLoop_lookup (fuel : Nat) :
    ∀ (bytes : List Nat) (acc : List (Nat × List Nat)) (k : Nat),
      mapLookup (mapDecodeLoop fuel bytes acc) k =
        match mapLookup acc k with
        | some w => some w
        | none => mapLookup (mapEntriesLoop fuel bytes) k := by
  induction fuel with
  | zero =>
      intro bytes acc k
      cases h : mapLookup acc k <;>
        simp [mapDecodeLoop, mapEntriesLoop, mapLookup_nil, h]
  | succ fuel ih =>
      intro bytes acc k
      by_cases hb : bytes = []
      · subst hb
        cases h : mapLookup acc k <;>
          simp [mapDecodeLoop, mapEntriesLoop, mapLookup_nil, h]
      · simp only [mapDecodeLoop, mapEntriesLoop, if_neg hb]
        rw [ih, mapLookup_mapInsert, mapLookup_cons]
        by_cases hk : k = readLE bytes 0 4
        · cases hm : mapLookup acc (readLE bytes 0 4) <;> simp [hk, hm]
        · have hk2 : ¬ readLE bytes 0 4 = k := fun h => hk h.symm
          cases hm : mapLookup acc k <;> simp [hk, hk2, hm]

/-- C1 (amended): duplicate keys resolve first-wins: looking up any key in
a decoded Map returns the value of the first entry with that key in the
payload's wire order (`std::map::insert` keeps the existing binding). -/
theorem map_decode_first_occurrence (raw : List Nat) (k : Nat) :
    mapLookup (map_decode raw) k = mapLookup (map_entries raw) k := by
  unfold map_decode map_entries
  rw [mapDecodeLoop_lookup]
  rfl

/-- C1 counterexample: a Map record whose payload binds key 0 first to a
True record and then to a False record decodes so that key 0 maps to the
first occurrence (True), not the last (False) as the claim states. -/
theorem map_decode_last_wins_ctrex :
    map_entries ex_dup_map = [(0, [0x31]), (0, [0x30])] ∧
    map_get (map_decode ex_dup_map) 0 = [0x31] ∧
    map_get (map_decode ex_dup_map) 0 ≠ [0x30] := by decide

end Watson

namespace Watson

/-! C10, C2: Recipe step navigation. -/

/-- C10: `Recipe::ngrdnt` on an empty step list returns the shared Null
not-found sentinel (for which `is_null` holds), not the root Container
(the sentinel's kind is Null, not Container). -/
theorem recipe_empty_steps (unc : List Nat → List Nat) (fuel : Nat)
    (container : List (List Nat)) :
    recipe_ngrdnt unc fuel container [] = some k_not_found ∧
    is_null k_not_found = true ∧
    ngrdnt_type (k_not_found.headD 0) ≠ 0x03 :=
  ⟨rfl, by decide, by decide⟩

/-- C2 counterexample: an out-of-range step applied to the Recipe's root
Container at the FIRST position goes through the unchecked
`std::vector::operator[]` (undefined behaviour, modelled as no result),
not to the Null sentinel the claim promises.  The root container here has
one child and the first step is 1. -/
theorem recipe_first_step_oob_ctrex :
    (1 : Nat) ≥ ([[0x3F]] : List (List Nat)).length ∧
    recipe_ngrdnt id 5 [[0x3F]] [1] = none ∧
    recipe_ngrdnt id 5 [[0x3F]] [1] ≠ some k_not_found := by decide

/-- C2 (amended): from the second step position on, reaching a Container
whose child count is at most the current step yields the shared Null
not-found sentinel; at the first position the root container is indexed
without a bounds check, so an out-of-range first step has no defined
result. -/
theorem recipe_container_oob_spec (unc : List Nat → List Nat) (fuel : Nat)
    (cur : List Nat) (container : List (List Nat)) (s : Nat) (rest : List Nat) :
    (ngrdnt_type (cur.headD 0) = 0x03 → (container_children cur).length ≤ s →
      recipeLoop unc (fuel + 1) cur (s :: rest) = some k_not_found) ∧
    (container.length ≤ s → recipe_ngrdnt unc fuel container (s :: rest) = none) := by
  constructor
  · intro hk hlen
    have hk2 : ngrdnt_type (cur.head?.getD 0) = 3 := by
      rw [← List.headD_eq_head?_getD]; exact hk
    simp [recipeLoop, ge_iff_le, hlen, hk2]
  · intro hlen
    have hnone : container[s]? = none := List.getElem?_eq_none hlen
    simp [recipe_ngrdnt, hnone]

/-- Witness for the amended C2 at a concrete Container record with one
child (step 2 in the loop) and a concrete one-child root (first step 0 on
an empty root). -/
theorem recipe_container_oob_spec_witness :
    recipeLoop id 1 ex_container1 [2] = some k_not_found ∧
    recipe_ngrdnt id 0 ([] : List (List Nat)) [0] = none :=
  ⟨(recipe_container_oob_spec id 0 ex_container1 [] 2 []).1 (by decide) (by decide),
   (recipe_container_oob_spec id 0 ex_container1 [] 0 []).2 (by decide)⟩

/-! C5: the S4 Library round-trip. -/

/-- C5: encoding the Library `["Testing", "Testing.", "Third"]` yields
exactly `4C 1C 73 09 "Testing" 73 0A "Testing." 73 07 "Third"`, and
decoding that record reproduces the same three strings in order. -/
theorem library_roundtrip_s4 :
    new_ngrdnt_library [str_testing, str_testing_dot, str_third] =
      test_library_bytes ∧
    library_decode test_library_bytes =
      [str_testing, str_testing_dot, str_third] := by decide

/-! C9: Glossary translation. -/

/-- C9: `xlate` preserves list length in both directions; a name absent
from the glossary's index translates to 0, and a key at least the
glossary's name count translates to the empty string. -/
theorem xlate_spec (g : Glossary) (ns : List (List Nat)) (ks : List Nat)
    (i : Nat) (nm : List Nat) (k : Nat) :
    (xlate_names g ns).length = ns.length ∧
    (xlate_keys g ks).length = ks.length ∧
    (ns.get? i = some nm → idxFind g nm = none →
      (xlate_names g ns).get? i = some 0) ∧
    (ks.get? i = some k → g.names.length ≤ k →
      (xlate_keys g ks).get? i = some []) := by
  refine ⟨List.length_map _ _, List.length_map _ _, fun h1 h2 => ?_, fun h1 h2 => ?_⟩
  · unfold xlate_names
    rw [List.get?_map, h1]
    simp [h2]
  · unfold xlate_keys
    rw [List.get?_map, h1]
    simp [Nat.not_lt.mpr h2]

/-- Witness for C9: on an empty glossary, the unknown name `"A"` maps to
0 and the unknown key 7 maps to the empty string. -/
theorem xlate_spec_witness :
    (xlate_names (glossary_of []) [[65]]).get? 0 = some 0 ∧
    (xlate_keys (glossary_of []) [7]).get? 0 = some [] :=
  ⟨(xlate_spec (glossary_of []) [[65]] [7] 0 [65] 7).2.2.1 (by decide) (by decide),
   (xlate_spec (glossary_of []) [[65]] [7] 0 [65] 7).2.2.2 (by decide) (by decide)⟩

end Watson

namespace Watson

/-! C4: Zip transparency. -/

/-- `unc0` undoes `comp0` on every input, i.e. the pair satisfies the
Snappy round-trip hypothesis of the claim. -/
theorem unc0_comp0 : ∀ b : List Nat, unc0 (comp0 b) = b := by
  intro b
  unfold unc0 comp0
  simp [List.take_left']

theorem comp0_ex_false_length : (comp0 ex_false).length = 0xFFFD := by
  rw [comp0]
  rw [List.length_cons, List.length_append, List.length_replicate]
  have h : ex_false.length = 1 := rfl
  omega

/-- The Zip record built over `comp0 ex_false`: the two-byte length field
holds `0x10000 % 2^16 = 0`. -/
theorem zip_record_eq :
    new_ngrdnt_zip comp0 ex_false = 0x9A :: 0 :: 0 :: comp0 ex_false := by
  have hsz : ngrdnt_size ex_false = 1 := by decide
  have htake : List.take 1 ex_false = ex_false := by decide
  have hm : type_marker 2 0x1A = 0x9A := by decide
  have hle : leBytes 0x10000 2 = [0, 0] := by decide
  simp only [new_ngrdnt_zip, hsz, htake, build_ngrdnt, comp0_ex_false_length]
  norm_num [size_type_necessary, ngrdnt_header_size, size_size, hm, hle]

/-- Helper: the size field of a record whose marker has size class Two is
the 16-bit little-endian value of the next two bytes. -/
theorem ngrdnt_size_two (a b c : Nat) (t : List Nat) (h : size_type a = 2) :
    ngrdnt_size (a :: b :: c :: t) = b + 256 * c := by
  have h2 : size_type ((a :: b :: c :: t).headD 0) = 2 := by simpa using h
  unfold ngrdnt_size
  rw [h2]
  simp [readLE]

/-- C4 counterexample: with the round-trip pair `(comp0, unc0)` and the
one-byte Ingredient `ex_false`, the compressed image is `0xFFFD` bytes,
the stored total size `0x10000` overflows the two-byte length field to 0,
and decoding the built Zip record yields `[]`, not `ex_false`. -/
theorem zip_roundtrip_ctrex :
    (∀ b : List Nat, unc0 (comp0 b) = b) ∧
    compressed_decode unc0 (new_ngrdnt_zip comp0 ex_false) = [] ∧
    ([] : List Nat) ≠ ex_false := by
  refine ⟨unc0_comp0, ?_, by decide⟩
  rw [zip_record_eq]
  have hsz : ngrdnt_size (0x9A :: 0 :: 0 :: comp0 ex_false) = 0 := by
    rw [ngrdnt_size_two 0x9A 0 0 (comp0 ex_false) (by decide)]
  have hh : marker_header_size ((0x9A :: 0 :: 0 :: comp0 ex_false).headD 0) = 3 := by
    decide
  unfold compressed_decode
  rw [hsz, hh]
  simp [unc0]

/-- Helper: the first `marker_header_size` bytes of a built record are the
header; dropping them leaves exactly the payload. -/
theorem build_drop_header (it : Nat) (payload : List Nat) :
    (build_ngrdnt it payload).drop
      (ngrdnt_header_size (size_type_necessary payload.length)) = payload := by
  rcases Nat.eq_zero_or_pos payload.length with hz | hp
  · have hpl : payload = [] := List.length_eq_zero.mp hz
    subst hpl
    simp [build_ngrdnt, size_type_necessary, ngrdnt_header_size, size_size]
  · simp only [build_ngrdnt, if_pos hp, ngrdnt_header_size]
    rw [Nat.add_comm (size_size (size_type_necessary payload.length)) 1]
    rw [show 1 + size_size (size_type_necessary payload.length) =
      size_size (size_type_necessary payload.length) + 1 from Nat.add_comm _ _]
    rw [List.drop_succ_cons, List.drop_left' (leBytes_length _ _)]

/-- Helper: the header width a reader computes from a built record's
marker byte. -/
theorem build_header_size (it : Nat) (payload : List Nat) (hit : it < 64) :
    marker_header_size ((build_ngrdnt it payload).headD 0) =
      ngrdnt_header_size (size_type_necessary payload.length) := by
  have hstle := size_type_necessary_le payload.length
  simp only [build_ngrdnt, List.headD_cons, marker_header_size,
    size_type_type_marker hstle hit]

/-- C4 (amended): for every Ingredient `x` (its size field consistent with
its byte image) and every compress / uncompress pair satisfying the
round-trip hypothesis, provided the compressed image's length is not
`0xFFFD` (where the two-byte length field overflows) and small enough for
the eight-byte field, the built Zip record's payload is exactly the
compressed image and decoding it gives back `x` byte-for-byte. -/
theorem zip_roundtrip_amended (comp unc : List Nat → List Nat) (x : List Nat)
    (hrt : ∀ b : List Nat, unc (comp b) = b)
    (hwf : ngrdnt_size x = x.length)
    (h1 : (comp x).length ≠ 0xFFFD)
    (h2 : (comp x).length + 9 < 2 ^ 64) :
    payloadOf (new_ngrdnt_zip comp x) = comp x ∧
    compressed_decode unc (new_ngrdnt_zip comp x) = x := by
  have htake : x.take (ngrdnt_size x) = x := by rw [hwf, List.take_length]
  have hzip : new_ngrdnt_zip comp x = build_ngrdnt 0x1A (comp x) := by
    rw [new_ngrdnt_zip, htake]
  constructor
  · rw [hzip]
    exact payloadOf_build 0x1A (comp x) (by norm_num) h1 h2
  · rw [hzip]
    unfold compressed_decode
    rw [build_header_size 0x1A (comp x) (by norm_num),
      ngrdnt_size_build 0x1A (comp x) (by norm_num) h1 h2,
      Nat.add_sub_cancel, build_drop_header, List.take_length, hrt]

/-- Witness for the amended C4 with the identity pair on the one-byte
False record. -/
theorem zip_roundtrip_amended_witness :
    payloadOf (new_ngrdnt_zip id ex_false) = id ex_false ∧
    compressed_decode id (new_ngrdnt_zip id ex_false) = ex_false :=
  zip_roundtrip_amended id id ex_false (fun _ => rfl) (by decide)
    (by decide) (by norm_num [ex_false])

end Watson

namespace Watson

/-! C8: Flags encode / decode.  General helpers first. -/

theorem getD_set_self (l : List Nat) (i a : Nat) (h : i < l.length) :
    (l.set i a).getD i 0 = a := by
  simp [List.getD, List.getElem?_set_self, h]

theorem getD_set_ne (l : List Nat) (i j a : Nat) (h : i ≠ j) :
    (l.set i a).getD j 0 = l.getD j 0 := by
  simp [List.getD, List.getElem?_set_ne h]

theorem getD_replicate_zero (n j : Nat) :
    (List.replicate n (0 : Nat)).getD j 0 = 0 := by
  simp [List.getD, List.getElem?_replicate]
  split <;> rfl

/-- Below flag position 2048 the `uint8_t` truncation of the byte index
is the identity and the step writes byte `n / 8`. -/
theorem flagStep_true (v : List Bool) (st : List Nat) (n : Nat)
    (h : v.getD n false = true) (hn : n < 2048) :
    flagStep v st n = st.set (n / 8) (st.getD (n / 8) 0 ||| 1 <<< (n % 8)) := by
  unfold flagStep
  rw [if_pos h]
  have hidx : (n >>> 3) % 256 = n / 8 := by
    rw [Nat.shiftRight_eq_div_pow]
    have h8 : n / 2 ^ 3 = n / 8 := by norm_num
    rw [h8]
    exact Nat.mod_eq_of_lt (by omega)
  rw [hidx]

theorem flagStep_false (v : List Bool) (st : List Nat) (n : Nat)
    (h : ¬ v.getD n false = true) :
    flagStep v st n = st := by
  unfold flagStep
  rw [if_neg h]

theorem flagMask_succ (v : List Bool) (j n : Nat) :
    flagMask v j (n + 1) =
      flagMask v j n |||
        (if n / 8 = j ∧ v.getD n false = true then 1 <<< (n % 8) else 0) := rfl

theorem getD_drop (l : List Nat) (n i d : Nat) :
    (l.drop n).getD i d = l.getD (n + i) d := by
  simp [List.getD, List.getElem?_drop]

/-- `x & (1 << i)` is nonzero exactly when bit `i` of `x` is set. -/
theorem and_shift_ne (x i : Nat) : ((x &&& (1 <<< i)) != 0) = x.testBit i := by
  rw [Nat.shiftLeft_eq, one_mul, Nat.and_two_pow]
  cases h : x.testBit i <;> simp [h]

theorem foldl_flagStep_length (v : List Bool) (l : List Nat) (acc : List Nat) :
    (l.foldl (flagStep v) acc).length = acc.length := by
  induction l generalizing acc with
  | nil => rfl
  | cons a t ih =>
      rw [List.foldl_cons, ih]
      unfold flagStep
      split <;> simp

theorem flagsBytes_length (v : List Bool) :
    (flagsBytes v).length = flags_data_size v.length := by
  unfold flagsBytes
  rw [foldl_flagStep_length, List.length_replicate]

/-- Loop invariant of the flag-encode loop: after processing flags
`0 .. n-1`, byte `j` holds its initial value OR the mask of those flags. -/
theorem foldl_flagStep_getD (v : List Bool) :
    ∀ (n : Nat) (acc : List Nat) (j : Nat), n ≤ 8 * acc.length → n ≤ 2048 →
      ((List.range n).foldl (flagStep v) acc).getD j 0 =
        acc.getD j 0 ||| flagMask v j n := by
  intro n
  induction n with
  | zero => intro acc j _ _; simp [flagMask]
  | succ n ih =>
      intro acc j hn hn2
      rw [List.range_succ, List.foldl_append, List.foldl_cons, List.foldl_nil]
      have hlen : ((List.range n).foldl (flagStep v) acc).length = acc.length :=
        foldl_flagStep_length v _ acc
      by_cases hv : v.getD n false = true
      · rw [flagStep_true v _ n hv (by omega)]
        by_cases hj : n / 8 = j
        · rw [hj, getD_set_self _ _ _ (by omega), ih acc j (by omega) (by omega)]
          rw [flagMask_succ, if_pos ⟨hj, hv⟩, Nat.or_assoc]
        · rw [getD_set_ne _ _ _ _ hj, ih acc j (by omega) (by omega)]
          rw [flagMask_succ, if_neg (fun hc => hj hc.1), Nat.or_zero]
      · rw [flagStep_false v _ n hv, ih acc j (by omega) (by omega)]
        rw [flagMask_succ, if_neg (fun hc => hv hc.2), Nat.or_zero]

/-- Bit `b` of the mask of byte `j` after `n` flags: set exactly when flag
`8*j + b` exists among the first `n` and is true. -/
theorem flagMask_testBit (v : List Bool) (j : Nat) :
    ∀ (n b : Nat), b < 8 →
      (flagMask v j n).testBit b =
        (decide (8 * j + b < n) && v.getD (8 * j + b) false) := by
  intro n
  induction n with
  | zero => intro b _; simp [flagMask]
  | succ n ih =>
      intro b hb
      rw [flagMask_succ, Nat.testBit_or, ih b hb]
      by_cases hc : n / 8 = j ∧ v.getD n false = true
      · rw [if_pos hc, Nat.shiftLeft_eq, one_mul]
        by_cases hb2 : n % 8 = b
        · have hn : n = 8 * j + b := by omega
          have hcv : v[n]?.getD false = true := by
            simpa [List.getD] using hc.2
          rw [← hn, Nat.testBit_two_pow, hb2]
          simp [hc.2, hcv, Nat.lt_succ_self]
        · have hbit : (2 ^ (n % 8)).testBit b = false := by
            simp [Nat.testBit_two_pow, hb2]
          rw [hbit, Bool.or_false]
          have : (8 * j + b < n) ↔ (8 * j + b < n + 1) := by omega
          rw [decide_eq_decide.mpr this]
      · rw [if_neg hc]
        simp only [Nat.zero_testBit, Bool.or_false]
        by_cases he : 8 * j + b = n
        · have hj : n / 8 = j := by omega
          have hv : v.getD n false = false := by
            by_cases hvv : v.getD n false = true
            · exact absurd ⟨hj, hvv⟩ hc
            · simpa using hvv
          rw [he, hv]
          simp
        · have : (8 * j + b < n) ↔ (8 * j + b < n + 1) := by omega
          rw [decide_eq_decide.mpr this]

/-- The bytes of `flagsBytes`: byte `j` is the mask of all flags (for
vectors short enough that the `uint8_t` index truncation never fires). -/
theorem flagsBytes_getD (v : List Bool) (j : Nat) (hle : v.length ≤ 2048) :
    (flagsBytes v).getD j 0 = flagMask v j v.length := by
  have hb : v.length ≤
      8 * (List.replicate (flags_data_size v.length) (0 : Nat)).length := by
    rw [List.length_replicate]
    unfold flags_data_size
    by_cases h : v.length % 8 = 0 <;> simp [h] <;> omega
  unfold flagsBytes
  rw [foldl_flagStep_getD v v.length _ j hb hle, getD_replicate_zero, Nat.zero_or]

end Watson

namespace Watson

/-- `to_flags` of a freshly built Flags record, as bits of the packed
payload.  For at most 2048 flags the payload is at most 256 bytes, so
neither the `uint8_t` truncation of the byte index nor the two-byte
length-field overflow can fire. -/
theorem to_flags_build (v : List Bool) (hle : v.length ≤ 2048) :
    to_flags (new_ngrdnt_flags v) =
      (List.range (flags_data_size v.length * 8)).map
        (fun h => ((flagsBytes v).getD (h / 8) 0).testBit (h % 8)) := by
  have hds : (flagsBytes v).length = flags_data_size v.length := flagsBytes_length v
  have hds256 : flags_data_size v.length ≤ 256 := by
    unfold flags_data_size
    by_cases h : v.length % 8 = 0 <;> simp [h] <;> omega
  have h1 : (flagsBytes v).length ≠ 0xFFFD := by rw [hds]; omega
  have h2 : (flagsBytes v).length + 9 < 2 ^ 64 := by rw [hds]; omega
  have hsz := ngrdnt_size_build 0x22 (flagsBytes v) (by norm_num) h1 h2
  have hmhs := build_header_size 0x22 (flagsBytes v) (by norm_num)
  have hdrop := build_drop_header 0x22 (flagsBytes v)
  have hcount : (ngrdnt_size (build_ngrdnt 0x22 (flagsBytes v)) -
      marker_header_size ((build_ngrdnt 0x22 (flagsBytes v)).headD 0)) * 8 =
      flags_data_size v.length * 8 := by
    rw [hsz, hmhs, Nat.add_sub_cancel, flagsBytes_length]
  have hfun : ∀ h : Nat, h < flags_data_size v.length * 8 →
      ((((build_ngrdnt 0x22 (flagsBytes v)).getD
          (((h >>> 3) % 256) +
            marker_header_size ((build_ngrdnt 0x22 (flagsBytes v)).headD 0)) 0)
        &&& (1 <<< (h % 8))) != 0) =
        ((flagsBytes v).getD (h / 8) 0).testBit (h % 8) := by
    intro h hh
    have hidx : (h >>> 3) % 256 = h / 8 := by
      rw [Nat.shiftRight_eq_div_pow]
      have h8 : h / 2 ^ 3 = h / 8 := by norm_num
      rw [h8]
      exact Nat.mod_eq_of_lt (by omega)
    rw [hidx, hmhs,
      Nat.add_comm (h / 8)
        (ngrdnt_header_size (size_type_necessary (flagsBytes v).length)),
      ← getD_drop, hdrop, and_shift_ne]
  unfold to_flags new_ngrdnt_flags
  rw [hcount]
  exact List.map_congr_left (fun h hm => hfun h (List.mem_range.mp hm))

/-- C8 (amended): for every flag vector of at most 2048 flags — so that
the `uint8_t` byte index `h >> 3` of the source's loops never wraps —
the built record's payload is `ceil(n/8)` bytes with bit `i` at
`payload[i >> 3]` position `i & 7`, and `to_flags` of the record has
`8 * ceil(n/8)` entries, the first `n` equal to the input and the rest
false. -/
theorem flags_roundtrip_amended (v : List Bool) (h0 : v.length ≤ 2048) :
    payloadOf (new_ngrdnt_flags v) = flagsBytes v ∧
    (flagsBytes v).length = flags_data_size v.length ∧
    (∀ i, i < v.length →
      ((flagsBytes v).getD (i / 8) 0).testBit (i % 8) = v.getD i false) ∧
    (to_flags (new_ngrdnt_flags v)).length = 8 * flags_data_size v.length ∧
    (to_flags (new_ngrdnt_flags v)).take v.length = v ∧
    (∀ j, v.length ≤ j → (to_flags (new_ngrdnt_flags v)).getD j false = false) := by
  have hds := flagsBytes_length v
  have hds256 : flags_data_size v.length ≤ 256 := by
    unfold flags_data_size
    by_cases h : v.length % 8 = 0 <;> simp [h] <;> omega
  have h1' : (flagsBytes v).length ≠ 0xFFFD := by rw [hds]; omega
  have hn8 : v.length ≤ 8 * flags_data_size v.length := by
    unfold flags_data_size
    by_cases h : v.length % 8 = 0 <;> simp [h] <;> omega
  have h2' : (flagsBytes v).length + 9 < 2 ^ 64 := by rw [hds]; omega
  have hbit : ∀ i, i < v.length →
      ((flagsBytes v).getD (i / 8) 0).testBit (i % 8) = v.getD i false := by
    intro i hi
    rw [flagsBytes_getD v (i / 8) h0,
      flagMask_testBit v (i / 8) v.length (i % 8) (by omega)]
    have he : 8 * (i / 8) + i % 8 = i := by omega
    rw [he]
    simp [hi]
  have htf := to_flags_build v h0
  refine ⟨payloadOf_build 0x22 (flagsBytes v) (by norm_num) h1' h2', hds, hbit,
    ?_, ?_, ?_⟩
  · rw [htf]
    simp [Nat.mul_comm]
  · rw [htf, ← List.map_take, List.take_range]
    have hmin : min v.length (flags_data_size v.length * 8) = v.length := by omega
    rw [hmin]
    apply List.ext_getElem
    · simp
    · intro i hi1 hi2
      have hi : i < v.length := by simpa using hi1
      simp only [List.getElem_map, List.getElem_range]
      rw [hbit i hi]
      simp [List.getD, List.getElem?_eq_getElem hi]
  · intro j hj
    rw [htf]
    rcases Nat.lt_or_ge j (flags_data_size v.length * 8) with hlt | hge
    · have hel : ((List.range (flags_data_size v.length * 8)).map
          (fun h => ((flagsBytes v).getD (h / 8) 0).testBit (h % 8))).getD j false =
          ((flagsBytes v).getD (j / 8) 0).testBit (j % 8) := by
        simp [List.getD, List.getElem?_map, List.getElem?_range, hlt]
      rw [hel, flagsBytes_getD v (j / 8) h0,
        flagMask_testBit v (j / 8) v.length (j % 8) (by omega)]
      have hko : ¬ (8 * (j / 8) + j % 8 < v.length) := by omega
      simp [hko]
    · have hr : (List.range (flags_data_size v.length * 8))[j]? = none :=
        List.getElem?_eq_none (by simpa using hge)
      simp [List.getD, hr]

/-- Witness for the amended C8 on the three-flag vector
`[true, false, true]`. -/
theorem flags_roundtrip_amended_witness :
    payloadOf (new_ngrdnt_flags [true, false, true]) =
      flagsBytes [true, false, true] ∧
    (to_flags (new_ngrdnt_flags [true, false, true])).take 3 =
      [true, false, true] :=
  ⟨(flags_roundtrip_amended [true, false, true] (by norm_num)).1,
   (flags_roundtrip_amended [true, false, true] (by norm_num)).2.2.2.2.1⟩

end Watson

namespace Watson

/-- Encoding all-false flags packs an all-zero payload. -/
theorem flagsBytes_replicate_false (n : Nat) :
    flagsBytes (List.replicate n false) =
      List.replicate (flags_data_size n) 0 := by
  unfold flagsBytes
  rw [List.length_replicate]
  have hstep : ∀ (l : List Nat) (acc : List Nat),
      l.foldl (flagStep (List.replicate n false)) acc = acc := by
    intro l
    induction l with
    | nil => intro acc; rfl
    | cons a t ih =>
        intro acc
        rw [List.foldl_cons]
        have hg : ¬ (List.replicate n false).getD a false = true := by
          rcases Nat.lt_or_ge a n with h | h
          · simp [List.getD, List.getElem?_replicate, h]
          · have h2 : (List.replicate n false).length ≤ a := by simpa using h
            simp [List.getD, List.getElem?_eq_none h2]
        rw [flagStep_false _ _ _ hg, ih]
  rw [hstep]

/-- The Flags record built over `0xFFFD` zero payload bytes: the stored
total `0x10000` overflows the two-byte length field to 0. -/
theorem flags_record_eq :
    new_ngrdnt_flags ex_big_flags = 0xA2 :: 0 :: 0 :: List.replicate 0xFFFD 0 := by
  rw [new_ngrdnt_flags, ex_big_flags, flagsBytes_replicate_false]
  have hds : flags_data_size 524264 = 0xFFFD := by norm_num [flags_data_size]
  rw [hds]
  have hle : leBytes 0x10000 2 = [0, 0] := by decide
  have hm : type_marker 2 0x22 = 0xA2 := by decide
  simp only [build_ngrdnt, List.length_replicate]
  norm_num [size_type_necessary, ngrdnt_header_size, size_size, hm, hle]

/-- A second, independent failure mode of the flags round-trip: for the
524264-flag vector (payload byte count `0xFFFD`), the stored length field
overflows to 0 and `to_flags` of the encoded record returns `[]` instead
of a vector of `8 * ceil(n/8) = 524264` entries extending the input. -/
theorem to_flags_overflow_ctrex :
    ex_big_flags.length = 524264 ∧
    flags_data_size ex_big_flags.length = 0xFFFD ∧
    to_flags (new_ngrdnt_flags ex_big_flags) = [] ∧
    (to_flags (new_ngrdnt_flags ex_big_flags)).length ≠
      8 * flags_data_size ex_big_flags.length := by
  have hlen : ex_big_flags.length = 524264 := by
    rw [ex_big_flags, List.length_replicate]
  have hds : flags_data_size 524264 = 0xFFFD := by norm_num [flags_data_size]
  have hsz0 : ngrdnt_size (0xA2 :: 0 :: 0 :: List.replicate 0xFFFD 0) = 0 := by
    rw [ngrdnt_size_two 0xA2 0 0 _ (by decide)]
  have hempty : to_flags (new_ngrdnt_flags ex_big_flags) = [] := by
    rw [flags_record_eq]
    unfold to_flags
    rw [hsz0]
    have hh : marker_header_size
        ((0xA2 :: 0 :: 0 :: List.replicate 0xFFFD 0).headD 0) = 3 := by decide
    rw [hh]
    rw [show (0 - 3) * 8 = 0 from rfl, List.range_zero, List.map_nil]
  refine ⟨hlen, by rw [hlen]; exact hds, hempty, ?_⟩
  rw [hempty, hlen, hds]
  decide

end Watson

namespace Watson

/-! C8 counterexample: the `uint8_t` truncation of the byte index. -/

/-- A fold of the encode loop over positions whose flags are all false
leaves the buffer untouched. -/
theorem foldl_flagStep_of_false (v : List Bool) (l : List Nat) :
    ∀ init : List Nat, (∀ a ∈ l, ¬ v.getD a false = true) →
      l.foldl (flagStep v) init = init := by
  induction l with
  | nil => intro init _; rfl
  | cons a t ih =>
      intro init hf
      rw [List.foldl_cons, flagStep_false v init a (hf a (List.mem_cons_self a t))]
      exact ih _ (fun b hb => hf b (List.mem_cons_of_mem a hb))

theorem ex_long_flags_length : ex_long_flags.length = 2049 := by
  rw [ex_long_flags, List.length_append, List.length_replicate]
  rfl

theorem ex_long_flags_getD_lt (h : Nat) (hh : h < 2048) :
    ex_long_flags.getD h false = false := by
  have hlt : h < (List.replicate 2048 false).length := by
    rw [List.length_replicate]
    exact hh
  rw [ex_long_flags]
  simp only [List.getD, List.get?_eq_getElem?]
  rw [List.getElem?_append_left hlt, List.getElem?_replicate, if_pos hh]
  rfl

theorem ex_long_flags_getD_2048 : ex_long_flags.getD 2048 false = true := by
  have hge : (List.replicate 2048 false).length ≤ 2048 :=
    Nat.le_of_eq (List.length_replicate ..)
  rw [ex_long_flags]
  simp only [List.getD, List.get?_eq_getElem?]
  rw [List.getElem?_append_right hge, List.length_replicate]
  rfl

/-- Encoding `ex_long_flags`: the only set flag is position 2048, whose
byte index `2048 >> 3 = 256` the `uint8_t` cast truncates to 0, so the
bit lands in payload byte 0 rather than byte 256. -/
theorem flagsBytes_ex_long :
    flagsBytes ex_long_flags = 1 :: List.replicate 256 0 := by
  have hds : flags_data_size 2049 = 257 := by norm_num [flags_data_size]
  unfold flagsBytes
  rw [ex_long_flags_length, hds]
  rw [show (2049 : Nat) = 2048 + 1 from rfl, List.range_succ, List.foldl_append]
  rw [foldl_flagStep_of_false ex_long_flags (List.range 2048)
    (List.replicate 257 0)
    (fun a ha => by rw [ex_long_flags_getD_lt a (List.mem_range.mp ha)]; simp)]
  rw [List.foldl_cons, List.foldl_nil]
  unfold flagStep
  rw [if_pos ex_long_flags_getD_2048]
  have h1 : (2048 >>> 3) % 256 = 0 := by decide
  rw [h1, getD_replicate_zero]
  have h2 : (0 : Nat) ||| 1 <<< (2048 % 8) = 1 := by decide
  rw [h2]
  rw [show List.replicate 257 (0 : Nat) = 0 :: List.replicate 256 0 from rfl]
  rfl

/-- The record built over the 257-byte payload of `ex_long_flags`. -/
theorem long_flags_record_eq :
    build_ngrdnt 0x22 (1 :: List.replicate 256 0) =
      0xA2 :: 4 :: 1 :: 1 :: List.replicate 256 0 := by
  have hplen : (1 :: List.replicate 256 (0 : Nat)).length = 257 := by
    rw [List.length_cons, List.length_replicate]
  have hle : leBytes 260 2 = [4, 1] := by decide
  have hm : type_marker 2 0x22 = 0xA2 := by decide
  simp only [build_ngrdnt, hplen]
  norm_num [size_type_necessary, ngrdnt_header_size, size_size, hm, hle]

/-- C8 counterexample: for the 2049-flag vector with only flag 2048 set,
the `uint8_t` byte index (`const uint8_t indx = h >> 3`) wraps 256 to 0,
so the encoder stores the bit in payload byte 0 instead of
`payload[2048 >> 3] = payload[256]` as the claim states, and `to_flags`
of the record reports flag 0 as true although it is false in the input. -/
theorem flags_truncation_ctrex :
    ex_long_flags.length = 2049 ∧
    ex_long_flags.getD 0 false = false ∧
    ex_long_flags.getD 2048 false = true ∧
    ((payloadOf (new_ngrdnt_flags ex_long_flags)).getD (2048 >>> 3) 0).testBit
      (2048 % 8) = false ∧
    (to_flags (new_ngrdnt_flags ex_long_flags)).getD 0 false = true := by
  have hplen : (1 :: List.replicate 256 (0 : Nat)).length = 257 := by
    rw [List.length_cons, List.length_replicate]
  have hpay : payloadOf (new_ngrdnt_flags ex_long_flags) =
      1 :: List.replicate 256 0 := by
    rw [new_ngrdnt_flags, flagsBytes_ex_long]
    exact payloadOf_build 0x22 (1 :: List.replicate 256 0) (by norm_num)
      (by rw [hplen]; norm_num) (by rw [hplen]; norm_num)
  refine ⟨ex_long_flags_length, ex_long_flags_getD_lt 0 (by norm_num),
    ex_long_flags_getD_2048, ?_, ?_⟩
  · rw [hpay]
    have h256 : (2048 >>> 3) = 256 := by decide
    rw [h256, show (256 : Nat) = 255 + 1 from rfl, List.getD_cons_succ,
      getD_replicate_zero]
    simp [Nat.zero_testBit]
  · rw [new_ngrdnt_flags, flagsBytes_ex_long, long_flags_record_eq]
    have hsz : ngrdnt_size (0xA2 :: 4 :: 1 :: 1 :: List.replicate 256 0) = 260 := by
      rw [ngrdnt_size_two 0xA2 4 1 _ (by decide)]
    have hh : marker_header_size
        ((0xA2 :: 4 :: 1 :: 1 :: List.replicate 256 0).headD 0) = 3 := by decide
    unfold to_flags
    rw [hsz, hh, show (260 - 3) * 8 = 2056 from by norm_num]
    simp only [List.getD, List.get?_eq_getElem?, List.getElem?_map]
    rw [List.getElem?_range (show (0 : Nat) < 2056 by norm_num)]
    simp only [Option.map_some', Option.getD_some]
    have hidx : ((0 : Nat) >>> 3) % 256 + 3 = 3 := by decide
    have hgd : (0xA2 :: 4 :: 1 :: 1 :: List.replicate 256 (0 : Nat))[3]? = some 1 := by
      rw [show (3 : Nat) = 2 + 1 from rfl, List.getElem?_cons_succ,
        show (2 : Nat) = 1 + 1 from rfl, List.getElem?_cons_succ,
        show (1 : Nat) = 0 + 1 from rfl, List.getElem?_cons_succ,
        List.getElem?_cons_zero]
    rw [hidx, hgd]
    decide

end Watson
